import Mathlib

/-!
Verification of the extraction and history-merge core of the channel_monitor
repository (source file: src/extract_append.py).

The Python code is shallowly embedded: the regex-based extractors are
translated into deterministic character-list matchers implementing the
leftmost-match semantics of the concrete regular expressions used by the
code, dictionaries become association lists, and the filesystem / clock are
passed in explicitly.  Python `\d` is modelled as the ASCII digit class.
-/

namespace ChannelMonitor

/-- ASCII decimal digit test, modelling the digits matched by the patterns. -/
def isDig (c : Char) : Bool := 48 ≤ c.toNat && c.toNat ≤ 57

/-- Strip a literal from the front of a character list; `none` if it is not a
prefix.  Models matching a fixed literal piece of a regular expression. -/
def stripLit : List Char → List Char → Option (List Char)
  | [], l => some l
  | _ :: _, [] => none
  | a :: as, b :: bs => if a = b then stripLit as bs else none

/-- Split a character list at the first occurrence of `c`: returns the part
before (free of `c`) and the part after it.  Models `[^c]*c` in a regex. -/
def splitAtFirst (c : Char) : List Char → Option (List Char × List Char)
  | [] => none
  | b :: bs =>
    if b = c then some ([], bs)
    else match splitAtFirst c bs with
      | some (seg, rest) => some (b :: seg, rest)
      | none => none

/-- Maximal digit run at the front of a character list, plus the remainder.
Models a greedy `\d*`. -/
def takeDigits : List Char → List Char × List Char
  | [] => ([], [])
  | c :: t =>
    if isDig c then
      let p := takeDigits t
      (c :: p.1, p.2)
    else ([], c :: t)

/-- Base-10 value of a digit string, as computed by Python `int`. -/
def parseDigits (l : List Char) : Nat :=
  l.foldl (fun a c => 10 * a + (c.toNat - 48)) 0

/-- Boolean test for a literal occurring as a contiguous substring. -/
def hasInfixLit (lit : List Char) : List Char → Bool
  | [] => (stripLit lit []).isSome
  | c :: t => (stripLit lit (c :: t)).isSome || hasInfixLit lit t

/-- Boolean test for a literal occurring as a suffix. -/
def endsWithLit (lit l : List Char) : Bool :=
  (stripLit lit.reverse l.reverse).isSome

/-- Leftmost-match search: try the per-position matcher `f` at every suffix,
left to right, returning its first success.  Models `re.search`. -/
def searchFirst (f : List Char → Option α) : List Char → Option α
  | [] => f []
  | c :: t =>
    match f (c :: t) with
    | some x => some x
    | none => searchFirst f t

/-! ### The bilibili pattern

Regex in `DataExtractor.extract_bilibili_followers`:
`<span[^>]*class="nav-statistics__item-text">粉丝数</span><span[^>]*class="nav-statistics__item-num"[^>]*title="(\d+)">(\d+)</span>`
and the function returns `int(match.group(1))`.

Because a `[^>]*` segment cannot cross a `>`, each `>` appearing in the
pattern is forced to be the first `>` after the preceding `<span`, and the
capture `(\d+)` of the `title` attribute is forced to be the maximal digit
run ending just before the closing quote of the attribute.  The matcher
below implements exactly this (deterministic) behaviour. -/

def spanOpenLit : List Char := "<span".toList
def biliTextLit : List Char := "class=\"nav-statistics__item-text\"".toList
def biliMidLit : List Char := "粉丝数</span><span".toList
def biliNumLit : List Char := "class=\"nav-statistics__item-num\"".toList
def titleLit : List Char := "title=\"".toList
def titleRevLit : List Char := titleLit.reverse
def spanCloseLit : List Char := "</span>".toList

/-- Attempt to match the bilibili pattern at the very start of `l`,
returning the value of the first capture group. -/
def biliAt (l : List Char) : Option Nat :=
  (stripLit spanOpenLit l).bind fun r1 =>
  (splitAtFirst '>' r1).bind fun s1 =>
  if endsWithLit biliTextLit s1.1 then
    (stripLit biliMidLit s1.2).bind fun r3 =>
    (splitAtFirst '>' r3).bind fun s2 =>
    (match s2.1.reverse with
     | [] => none
     | c :: rev1 =>
       if c = '"' then
         let p := takeDigits rev1
         if p.1 = [] then none
         else
           (stripLit titleRevLit p.2).bind fun revA =>
           if hasInfixLit biliNumLit revA.reverse then
             let q := takeDigits s2.2
             if q.1 = [] then none
             else
               (stripLit spanCloseLit q.2).bind fun _ =>
               some (parseDigits p.1.reverse)
           else none
       else none)
  else none

/-- `DataExtractor.extract_bilibili_followers`. -/
def extract_bilibili_followers (html : String) : Option Nat :=
  searchFirst biliAt html.toList

/-! ### The douyin pattern

Regex in `DataExtractor.extract_douyin_followers` (with `re.DOTALL`):
`<div[^>]*data-e2e="user-info-fans"[^>]*>.*?<div[^>]*>粉丝</div>.*?<div[^>]*>(\d+)</div>`

The two lazy `.*?` gaps make the engine pick the leftmost position at which
the next `<div...>` piece matches and the remainder of the pattern can still
be completed; this is exactly a nested leftmost search. -/

def divOpenLit : List Char := "<div".toList
def dyFansLit : List Char := "data-e2e=\"user-info-fans\"".toList
def dyLabelLit : List Char := "粉丝</div>".toList
def divCloseLit : List Char := "</div>".toList

/-- Match `<div[^>]*>粉丝</div>` at the start of `l`, returning the rest. -/
def dyMiddleAt (l : List Char) : Option (List Char) :=
  (stripLit divOpenLit l).bind fun r1 =>
  (splitAtFirst '>' r1).bind fun s1 =>
  stripLit dyLabelLit s1.2

/-- Match `<div[^>]*>(\d+)</div>` at the start of `l`. -/
def dyTailAt (l : List Char) : Option Nat :=
  (stripLit divOpenLit l).bind fun r1 =>
  (splitAtFirst '>' r1).bind fun s1 =>
  let p := takeDigits s1.2
  if p.1 = [] then none
  else
    (stripLit divCloseLit p.2).bind fun _ =>
    some (parseDigits p.1)

/-- Match the head `<div[^>]*data-e2e="user-info-fans"[^>]*>` at the start
of `l`, then resolve the two lazy gaps by nested leftmost search. -/
def dyAt (l : List Char) : Option Nat :=
  (stripLit divOpenLit l).bind fun r1 =>
  (splitAtFirst '>' r1).bind fun s1 =>
  if hasInfixLit dyFansLit s1.1 then
    searchFirst (fun m => (dyMiddleAt m).bind (searchFirst dyTailAt)) s1.2
  else none

/-- `DataExtractor.extract_douyin_followers`. -/
def extract_douyin_followers (html : String) : Option Nat :=
  searchFirst dyAt html.toList

/-! ### The xiaohongshu pattern

Regex in `DataExtractor.extract_xiaohongshu_followers`:
`<span class="count"[^>]*>(\d+)</span><span class="shows"[^>]*>粉丝</span>` -/

def xhsCountLit : List Char := "<span class=\"count\"".toList
def xhsMidLit : List Char := "</span><span class=\"shows\"".toList
def xhsEndLit : List Char := "粉丝</span>".toList

/-- Match the xiaohongshu pattern at the start of `l`. -/
def xhsAt (l : List Char) : Option Nat :=
  (stripLit xhsCountLit l).bind fun r1 =>
  (splitAtFirst '>' r1).bind fun s1 =>
  let p := takeDigits s1.2
  if p.1 = [] then none
  else
    (stripLit xhsMidLit p.2).bind fun r3 =>
    (splitAtFirst '>' r3).bind fun s2 =>
    (stripLit xhsEndLit s2.2).bind fun _ =>
    some (parseDigits p.1)

/-- `DataExtractor.extract_xiaohongshu_followers`. -/
def extract_xiaohongshu_followers (html : String) : Option Nat :=
  searchFirst xhsAt html.toList

/-- The fixed platform set recognized by the extractor. -/
inductive Platform
  | bilibili
  | douyin
  | xiaohongshu
deriving DecidableEq, Repr

/-- Platform dispatch to the per-platform extractor. -/
def extract : Platform → String → Option Nat
  | .bilibili, s => extract_bilibili_followers s
  | .douyin, s => extract_douyin_followers s
  | .xiaohongshu, s => extract_xiaohongshu_followers s

/-! ### Timestamp extraction from the filename

`DataExtractor.extract_timestamp_from_filename` searches the filename for
`(\d{8})_(\d{6})`; on a match it runs
`datetime.strptime(f"{date_str}_{time_str}", "%Y%m%d_%H%M%S")` and returns
`dt.isoformat()`.  `strptime` validates the calendar fields and raises
`ValueError` when they are out of range; that exception is not caught.  On
no match the function falls back to `datetime.now().isoformat()`. -/

/-- A digit, as a character, for value `d < 10`. -/
def digitChar (d : Nat) : Char := Char.ofNat (48 + d)

/-- Zero-padded fixed-width decimal rendering (the low `w` digits of `n`),
matching Python's zero-padded formatting used by `isoformat`. -/
def natPad : Nat → Nat → List Char
  | 0, _ => []
  | w + 1, n => natPad w (n / 10) ++ [digitChar (n % 10)]

/-- First `n` characters and the remainder, or `none` if the list is
shorter than `n`.  Models `\d{n}`-style fixed-width pieces. -/
def takeN : Nat → List Char → Option (List Char × List Char)
  | 0, l => some ([], l)
  | _ + 1, [] => none
  | n + 1, c :: t =>
    match takeN n t with
    | some (a, r) => some (c :: a, r)
    | none => none

/-- Match `(\d{8})_(\d{6})` at the start of `l`, returning both groups. -/
def tsAt (l : List Char) : Option (List Char × List Char) :=
  (takeN 8 l).bind fun s1 =>
  if s1.1.all isDig then
    match s1.2 with
    | [] => none
    | c :: r2 =>
      if c = '_' then
        (takeN 6 r2).bind fun s2 =>
        if s2.1.all isDig then some (s1.1, s2.1) else none
      else none
  else none

/-- Gregorian leap-year test, as used by `datetime`. -/
def isLeap (y : Nat) : Bool := (y % 4 = 0 && y % 100 ≠ 0) || y % 400 = 0

/-- Days in a month, as validated by `datetime`. -/
def daysInMonth (y m : Nat) : Nat :=
  if m = 2 then (if isLeap y then 29 else 28)
  else if m = 4 || m = 6 || m = 9 || m = 11 then 30
  else 31

/-- The field validation performed by `strptime` + the `datetime`
constructor for format `%Y%m%d_%H%M%S`. -/
def validDT (y mo d hh mi ss : Nat) : Bool :=
  1 ≤ y && y ≤ 9999 && 1 ≤ mo && mo ≤ 12 && 1 ≤ d && d ≤ daysInMonth y mo &&
  hh ≤ 23 && mi ≤ 59 && ss ≤ 59

/-- Result of the timestamp parser: an ISO timestamp string, the impure
fallback to the current wall-clock time, or an uncaught `ValueError`. -/
inductive TSResult
  | iso (s : String)
  | fallbackNow
  | error
deriving DecidableEq, Repr

/-- `dt.isoformat()` for a datetime built from the six fields. -/
def isoOf (y mo d hh mi ss : Nat) : String :=
  String.mk (natPad 4 y ++ '-' :: natPad 2 mo ++ '-' :: natPad 2 d ++
    'T' :: natPad 2 hh ++ ':' :: natPad 2 mi ++ ':' :: natPad 2 ss)

/-- `DataExtractor.extract_timestamp_from_filename`. -/
def extract_timestamp_from_filename (filename : String) : TSResult :=
  match searchFirst tsAt filename.toList with
  | some (d8, t6) =>
    let y := parseDigits (d8.take 4)
    let mo := parseDigits ((d8.drop 4).take 2)
    let d := parseDigits (d8.drop 6)
    let hh := parseDigits (t6.take 2)
    let mi := parseDigits ((t6.drop 2).take 2)
    let ss := parseDigits (t6.drop 4)
    if validDT y mo d hh mi ss then .iso (isoOf y mo d hh mi ss) else .error
  | none => .fallbackNow

/-! ### The history store

`follower_history.json` is a JSON object mapping a date string to an object
mapping a platform name to a follower count.  Python dicts are modelled as
association lists (first binding wins on lookup; assignment replaces the
first binding in place or appends a fresh one at the end, like dict
insertion order). -/

/-- Python dict lookup. -/
def dictGet (k : String) : List (String × α) → Option α
  | [] => none
  | (k', v) :: t => if k' = k then some v else dictGet k t

/-- Python dict assignment `d[k] = v`. -/
def dictSet (k : String) (v : α) : List (String × α) → List (String × α)
  | [] => [(k, v)]
  | (k', v') :: t => if k' = k then (k, v) :: t else (k', v') :: dictSet k v t

/-- The persisted history: date string to (platform name to count). -/
def History := List (String × List (String × Nat))
deriving DecidableEq, Repr

/-- Two-level lookup `history[date][platform]`. -/
def dictGet2 (h : History) (d p : String) : Option Nat :=
  match dictGet d h with
  | some m => dictGet p m
  | none => none

/-- The state of the persisted history file seen by `load_existing_data`:
missing, present but not parseable as JSON, or present and parsed. -/
inductive FileState
  | absent
  | malformed
  | valid (h : History)

/-- `DataExtractor.load_existing_data`: an absent file and a file whose
parse raises are both recovered as the empty dict; the Boolean records
whether the warning about a load error was printed.  The function is total:
no outcome raises. -/
def load_existing_data : FileState → History × Bool
  | .absent => ([], false)
  | .malformed => ([], true)
  | .valid h => (h, false)

/-- The platform name string stored in the history file. -/
def platStr : Platform → String
  | .bilibili => "bilibili"
  | .douyin => "douyin"
  | .xiaohongshu => "xiaohongshu"

/-- An extraction result record, as built by `process_html_file`. -/
structure Entry where
  platform : Platform
  followers : Nat
  timestamp : String
  source_file : String
deriving DecidableEq, Repr

/-- `timestamp.split('T')[0]`: the date component of the entry. -/
def entryDate (e : Entry) : String :=
  String.mk (e.timestamp.toList.takeWhile (fun c => c ≠ 'T'))

/-- `DataExtractor.append_data` acting on a loaded history: merges the
entry under its date and platform (last write wins) and reports whether the
overwrite warning was printed.  The updated history is saved back to the
file immediately afterwards (write-through). -/
def append_data (h : History) (e : Entry) : History × Bool :=
  let date := entryDate e
  let dm := match dictGet date h with
    | some m => m
    | none => []
  let warned := (dictGet (platStr e.platform) dm).isSome
  (dictSet date (dictSet (platStr e.platform) e.followers dm) h, warned)

/-! ### The batch driver -/

/-- A snapshot file in the cache directory: its name and its text. -/
structure HFile where
  name : String
  content : String
deriving DecidableEq, Repr

/-- Lowercasing of the filename, `html_file.name.lower()`. -/
def lowerStr (s : String) : String := String.mk (s.toList.map Char.toLower)

/-- The platform-token dispatch of `process_html_file`: case-insensitive
substring tests in source order (bilibili, then douyin, then xiaohongshu). -/
def platformOf (name : String) : Option Platform :=
  let fn := (lowerStr name).toList
  if hasInfixLit "bilibili".toList fn then some .bilibili
  else if hasInfixLit "douyin".toList fn then some .douyin
  else if hasInfixLit "xiaohongshu".toList fn then some .xiaohongshu
  else none

/-- Outcome of `process_html_file`: a data entry, the explicit
`Exception("Could not extract data from ...")` raised when the platform or
the count cannot be determined, or the uncaught `ValueError` escaping from
the timestamp parse. -/
inductive ProcResult
  | entry (e : Entry)
  | extractFail
  | tsFail
deriving DecidableEq, Repr

/-- `DataExtractor.process_html_file`.  `now` is the wall-clock ISO string
used when the filename carries no timestamp token. -/
def process_html_file (now : String) (f : HFile) : ProcResult :=
  match platformOf f.name with
  | none => .extractFail
  | some p =>
    match extract p f.content with
    | none => .extractFail
    | some cnt =>
      match extract_timestamp_from_filename (lowerStr f.name) with
      | .iso s => .entry ⟨p, cnt, s, f.name⟩
      | .fallbackNow => .entry ⟨p, cnt, now, f.name⟩
      | .error => .tsFail

/-- The per-file loop of `process_all_html_files` over the (already
sorted) file list: each successful file is merged and persisted
immediately; the first failing file aborts the whole run with the history
persisted so far.  Returns (final persisted history, value of the
`processed` counter, whether an exception aborted the run). -/
def runBatch (now : String) : List HFile → History → History × Nat × Bool
  | [], h => (h, 0, false)
  | f :: fs, h =>
    match process_html_file now f with
    | .entry e =>
      let h' := (append_data h e).1
      let r := runBatch now fs h'
      (r.1, r.2.1 + 1, r.2.2)
    | _ => (h, 0, true)

/-- The persisted history after the successful prefix of a run. -/
def batchDisk (now : String) (files : List HFile) (h : History) : History :=
  files.foldl (fun acc f =>
    match process_html_file now f with
    | .entry e => (append_data acc e).1
    | _ => acc) h

/-- Character-list lexicographic order on code points, as used by Python
string comparison in `sorted`. -/
def charsLe : List Char → List Char → Bool
  | [], _ => true
  | _ :: _, [] => false
  | a :: as, b :: bs => if a = b then charsLe as bs else decide (a.toNat < b.toNat)

/-- Insert into a name-sorted file list. -/
def insertByName (f : HFile) : List HFile → List HFile
  | [] => [f]
  | g :: gs => if charsLe f.name.toList g.name.toList then f :: g :: gs
               else g :: insertByName f gs

/-- `sorted(html_files)`: sort the snapshot files by name. -/
def sortFiles : List HFile → List HFile
  | [] => []
  | f :: fs => insertByName f (sortFiles fs)

/-- Observable outcome of `process_all_html_files`: the persisted history,
the `processed` counter, whether an exception propagated, and the value the
function returns (Python returns `None` on every non-raising path). -/
structure AllResult where
  disk : History
  processed : Nat
  raised : Bool
  ret : Option Nat
deriving DecidableEq, Repr

/-- `DataExtractor.process_all_html_files`: early `return` (of `None`) when
the cache directory is missing or holds no HTML files; otherwise the sorted
per-file loop.  When the loop raises, the exception propagates and no value
is returned (`ret` is meaningless in that case and kept as `none`). -/
def process_all_html_files (dirExists : Bool) (files : List HFile)
    (now : String) (h : History) : AllResult :=
  if !dirExists then ⟨h, 0, false, none⟩
  else match files with
    | [] => ⟨h, 0, false, none⟩
    | _ :: _ =>
      let r := runBatch now (sortFiles files) h
      ⟨r.1, r.2.1, r.2.2, none⟩

/-! ### The summary / growth report (`display_summary`)

The growth analysis is only printed when the store has at least two dates;
it fixes `first_date` and `last_date` to the globally smallest and largest
date keys and, for each platform of the fixed list, reports
`last - first` and `(last - first) / first * 100` (or 0 when `first` is 0)
only when the platform has a value at both of those two dates.  Percentages
are modelled over `ℚ`. -/

/-- Insert into a sorted list of strings. -/
def insertStr (d : String) : List String → List String
  | [] => [d]
  | x :: xs => if charsLe d.toList x.toList then d :: x :: xs
               else x :: insertStr d xs

/-- `sorted(history.keys())`. -/
def sortedKeys (h : History) : List String :=
  List.foldr insertStr [] (h.map Prod.fst)

/-- Last element of `d :: ds`. -/
def lastOf (d : String) : List String → String
  | [] => d
  | x :: xs => lastOf x xs

/-- The growth line computed for platform `p` by `display_summary`, or
`none` when no line is printed for `p` (fewer than two dates in the store,
or `p` missing at the first or last date). -/
def growthFor (h : History) (p : String) : Option (Int × ℚ) :=
  match sortedKeys h with
  | [] => none
  | [_] => none
  | d0 :: d1 :: ds =>
    let dl := lastOf d1 ds
    match dictGet2 h d0 p, dictGet2 h dl p with
    | some fc, some lc =>
      some ((lc : Int) - (fc : Int),
        if 0 < fc then (((lc : ℚ) - (fc : ℚ)) / (fc : ℚ)) * 100 else 0)
    | _, _ => none

/-! ### Basic lemmas about the matching combinators -/

theorem stripLit_append (a r : List Char) : stripLit a (a ++ r) = some r := by
  induction a with
  | nil => rfl
  | cons c t ih => simp [stripLit, ih]

theorem stripLit_cons_ne {a b : Char} (as bs : List Char) (h : a ≠ b) :
    stripLit (a :: as) (b :: bs) = none := by
  simp [stripLit, h]

theorem stripLit_mem_of_some {a l r : List Char} (h : stripLit a l = some r) :
    ∀ x ∈ r, x ∈ l := by
  induction a generalizing l with
  | nil => simp [stripLit] at h; subst h; exact fun x hx => hx
  | cons c t ih =>
    match l with
    | [] => simp [stripLit] at h
    | b :: bs =>
      by_cases hc : c = b
      · subst hc
        simp [stripLit] at h
        exact fun x hx => List.mem_cons_of_mem _ (ih h x hx)
      · rw [stripLit_cons_ne _ _ hc] at h
        cases h

theorem stripLit_lit_mem {a l r : List Char} (h : stripLit a l = some r) :
    ∀ x ∈ a, x ∈ l := by
  induction a generalizing l with
  | nil => simp
  | cons c t ih =>
    match l with
    | [] => simp [stripLit] at h
    | b :: bs =>
      by_cases hc : c = b
      · subst hc
        simp [stripLit] at h
        intro x hx
        rcases List.mem_cons.mp hx with hx | hx
        · exact hx ▸ List.mem_cons_self _ _
        · exact List.mem_cons_of_mem _ (ih h x hx)
      · rw [stripLit_cons_ne _ _ hc] at h
        cases h

theorem splitAtFirst_append {c : Char} (seg rest : List Char)
    (h : ∀ b ∈ seg, b ≠ c) :
    splitAtFirst c (seg ++ c :: rest) = some (seg, rest) := by
  induction seg with
  | nil => simp [splitAtFirst]
  | cons b t ih =>
    have hb : b ≠ c := h b (List.mem_cons_self _ _)
    simp [splitAtFirst, hb, ih (fun x hx => h x (List.mem_cons_of_mem _ hx))]

theorem splitAtFirst_mem_of_some {c : Char} {l seg rest : List Char}
    (h : splitAtFirst c l = some (seg, rest)) :
    (∀ x ∈ seg, x ∈ l) ∧ (∀ x ∈ rest, x ∈ l) := by
  induction l generalizing seg rest with
  | nil => simp [splitAtFirst] at h
  | cons b bs ih =>
    by_cases hb : b = c
    · subst hb
      simp [splitAtFirst] at h
      obtain ⟨h1, h2⟩ := h
      subst h1; subst h2
      exact ⟨by simp, fun x hx => List.mem_cons_of_mem _ hx⟩
    · simp only [splitAtFirst, if_neg hb] at h
      match hs : splitAtFirst c bs with
      | none => rw [hs] at h; cases h
      | some (s', r') =>
        rw [hs] at h
        simp at h
        obtain ⟨h1, h2⟩ := h
        subst h1; subst h2
        obtain ⟨m1, m2⟩ := ih hs
        constructor
        · intro x hx
          rcases List.mem_cons.mp hx with hx | hx
          · exact hx ▸ List.mem_cons_self _ _
          · exact List.mem_cons_of_mem _ (m1 x hx)
        · exact fun x hx => List.mem_cons_of_mem _ (m2 x hx)

theorem takeDigits_append (d : List Char) {rc : Char} (r : List Char)
    (hd : ∀ x ∈ d, isDig x = true) (hr : isDig rc = false) :
    takeDigits (d ++ rc :: r) = (d, rc :: r) := by
  induction d with
  | nil => simp [takeDigits, hr]
  | cons x t ih =>
    have hx : isDig x = true := hd x (List.mem_cons_self _ _)
    simp [takeDigits, hx, ih (fun y hy => hd y (List.mem_cons_of_mem _ hy))]

theorem searchFirst_of_some {f : List Char → Option α} {l : List Char} {x : α}
    (h : f l = some x) : searchFirst f l = some x := by
  match l with
  | [] => simpa [searchFirst] using h
  | c :: t => simp [searchFirst, h]

theorem searchFirst_skip {f : List Char → Option α} (pre rest : List Char)
    (hf : ∀ c ∈ pre, ∀ t, f (c :: t) = none) :
    searchFirst f (pre ++ rest) = searchFirst f rest := by
  induction pre with
  | nil => rfl
  | cons c t ih =>
    simp [searchFirst, hf c (List.mem_cons_self _ _) (t ++ rest),
      ih (fun x hx => hf x (List.mem_cons_of_mem _ hx))]

theorem searchFirst_mem_of_some {f : List Char → Option α} {y : Char}
    (hf : ∀ t x, f t = some x → y ∈ t) :
    ∀ {l : List Char} {x : α}, searchFirst f l = some x → y ∈ l := by
  intro l
  induction l with
  | nil => intro x h; exact hf [] x (by simpa [searchFirst] using h)
  | cons c t ih =>
    intro x h
    simp only [searchFirst] at h
    match hc : f (c :: t) with
    | some v => exact hf _ _ hc
    | none => rw [hc] at h; exact List.mem_cons_of_mem _ (ih h)

theorem searchFirst_none_of_all_none {f : List Char → Option α}
    (hf : ∀ t, f t = none) (l : List Char) : searchFirst f l = none := by
  induction l with
  | nil => simp [searchFirst, hf]
  | cons c t ih => simp [searchFirst, hf, ih]

theorem isDig_ne {c x : Char} (h : isDig c = true) (hx : isDig x = false) :
    c ≠ x := by
  intro e; subst e; rw [h] at hx; cases hx

theorem parseDigits_concat (xs : List Char) (c : Char) :
    parseDigits (xs ++ [c]) = 10 * parseDigits xs + (c.toNat - 48) := by
  simp [parseDigits, List.foldl_append]

/-! ### Decimal digit strings -/

/-- Fuel-driven core of the decimal rendering of a natural number. -/
def natDigitsGo : Nat → Nat → List Char
  | 0, _ => []
  | fuel + 1, n =>
    if n < 10 then [digitChar n]
    else natDigitsGo fuel (n / 10) ++ [digitChar (n % 10)]

/-- The decimal digit string of `n`, as produced by Python `str`/`f`-strings
and embedded into snapshot text. -/
def natDigits (n : Nat) : List Char := natDigitsGo (n + 1) n

theorem digitChar_isDig {d : Nat} (h : d < 10) : isDig (digitChar d) = true := by
  interval_cases d <;> decide

theorem digitChar_toNat {d : Nat} (h : d < 10) : (digitChar d).toNat - 48 = d := by
  interval_cases d <;> decide

theorem natDigitsGo_all_dig (fuel n : Nat) :
    ∀ c ∈ natDigitsGo fuel n, isDig c = true := by
  induction fuel generalizing n with
  | zero => simp [natDigitsGo]
  | succ f ih =>
    by_cases h : n < 10
    · simp [natDigitsGo, h, digitChar_isDig h]
    · simp only [natDigitsGo, if_neg h]
      intro c hc
      rcases List.mem_append.mp hc with hc | hc
      · exact ih _ c hc
      · have : c = digitChar (n % 10) := by simpa using hc
        exact this ▸ digitChar_isDig (Nat.mod_lt _ (by omega))

theorem natDigits_all_dig (n : Nat) : ∀ c ∈ natDigits n, isDig c = true :=
  natDigitsGo_all_dig _ _

theorem natDigitsGo_ne_nil (fuel n : Nat) : natDigitsGo (fuel + 1) n ≠ [] := by
  by_cases h : n < 10 <;> simp [natDigitsGo, h]

theorem natDigits_ne_nil (n : Nat) : natDigits n ≠ [] := natDigitsGo_ne_nil _ _

theorem parseDigits_natDigitsGo (fuel : Nat) :
    ∀ n, n < fuel → parseDigits (natDigitsGo fuel n) = n := by
  induction fuel with
  | zero => intro n h; omega
  | succ f ih =>
    intro n h
    by_cases h10 : n < 10
    · have : parseDigits [digitChar n] = (digitChar n).toNat - 48 := by
        simp [parseDigits]
      simp [natDigitsGo, h10, this, digitChar_toNat h10]
    · have hdiv : n / 10 < f := by omega
      simp only [natDigitsGo, if_neg h10, parseDigits_concat, ih _ hdiv,
        digitChar_toNat (Nat.mod_lt n (by omega))]
      omega

theorem parseDigits_natDigits (n : Nat) : parseDigits (natDigits n) = n :=
  parseDigits_natDigitsGo _ _ (Nat.lt_succ_self n)

theorem natPad_length (w n : Nat) : (natPad w n).length = w := by
  induction w generalizing n with
  | zero => rfl
  | succ v ih => simp [natPad, ih]

theorem natPad_all_dig (w n : Nat) : ∀ c ∈ natPad w n, isDig c = true := by
  induction w generalizing n with
  | zero => simp [natPad]
  | succ v ih =>
    intro c hc
    simp only [natPad] at hc
    rcases List.mem_append.mp hc with hc | hc
    · exact ih _ c hc
    · have : c = digitChar (n % 10) := by simpa using hc
      exact this ▸ digitChar_isDig (Nat.mod_lt _ (by omega))

theorem parseDigits_natPad (w : Nat) :
    ∀ n, n < 10 ^ w → parseDigits (natPad w n) = n := by
  induction w with
  | zero => intro n h; interval_cases n; rfl
  | succ v ih =>
    intro n h
    have hdiv : n / 10 < 10 ^ v := by
      rw [Nat.div_lt_iff_lt_mul (by omega)]
      calc n < 10 ^ (v + 1) := h
        _ = 10 ^ v * 10 := by ring
    simp only [natPad, parseDigits_concat, ih _ hdiv,
      digitChar_toNat (Nat.mod_lt n (by omega))]
    omega

/-! ### Canonical well-formed pattern instances

These are the follower-count snippets documented in the extractor
docstrings, with the digit string abstracted.  `instHtmlL p ds` is the
well-formed follower-count pattern of platform `p` carrying the embedded
decimal digit string `ds`. -/

def biliSegA : List Char := " data-v-8c500df6=\"\" class=\"nav-statistics__item-text\"".toList
def biliSegB : List Char := " data-v-8c500df6=\"\" class=\"nav-statistics__item-num\" ".toList

/-- The bilibili snippet up to the opening quote of the `title` attribute. -/
def biliPreStr : String := "<span data-v-8c500df6=\"\" class=\"nav-statistics__item-text\">粉丝数</span><span data-v-8c500df6=\"\" class=\"nav-statistics__item-num\" title=\""

/-- The bilibili snippet with digits `ds` (in both the `title` attribute
and the element body, as on the real page). -/
def biliInstL (ds : List Char) : List Char :=
  biliPreStr.toList ++ ds ++ "\">".toList ++ ds ++ "</span>".toList

def dyPreStr : String := "<div class=\"Q1A_pjwq ELUP9h2u\" data-e2e=\"user-info-fans\"><div class=\"uvGnYXqn\">粉丝</div><div class=\"C1cxu0Vq\">"

/-- The douyin snippet with digits `ds`. -/
def dyInstL (ds : List Char) : List Char :=
  dyPreStr.toList ++ ds ++ "</div></div>".toList

def xhsPreStr : String := "<span class=\"count\" data-v-18b45ae8=\"\">"
def xhsPostStr : String := "</span><span class=\"shows\" data-v-18b45ae8=\"\">粉丝</span>"

/-- The xiaohongshu snippet with digits `ds`. -/
def xhsInstL (ds : List Char) : List Char :=
  xhsPreStr.toList ++ ds ++ xhsPostStr.toList

/-- The canonical well-formed pattern instance of a platform. -/
def instHtmlL : Platform → List Char → List Char
  | .bilibili, ds => biliInstL ds
  | .douyin, ds => dyInstL ds
  | .xiaohongshu, ds => xhsInstL ds

theorem biliPre_split :
    biliPreStr.toList
      = spanOpenLit ++ (biliSegA ++ '>' :: (biliMidLit ++ (biliSegB ++ titleLit))) := by
  decide

theorem biliAt_inst (ds suf : List Char) (hne : ds ≠ [])
    (hd : ∀ c ∈ ds, isDig c = true) :
    biliAt (biliInstL ds ++ suf) = some (parseDigits ds) := by
  have hds_gt : ∀ c ∈ ds, c ≠ '>' := fun c hc => isDig_ne (hd c hc) (by decide)
  have e1 : biliInstL ds ++ suf
      = spanOpenLit ++ (biliSegA ++ '>' ::
          (biliMidLit ++ (((biliSegB ++ titleLit) ++ ds ++ ['"']) ++ '>' ::
            (ds ++ (spanCloseLit ++ suf))))) := by
    rw [biliInstL, biliPre_split]
    simp [List.append_assoc, spanCloseLit]
  have hseg2 : ∀ b ∈ (biliSegB ++ titleLit) ++ ds ++ ['"'], b ≠ '>' := by
    intro b hb
    have hb' : b ∈ biliSegB ++ titleLit ∨ b ∈ ds ∨ b = '"' := by
      simpa [List.mem_append, or_assoc] using hb
    rcases hb' with hb' | hb' | hb'
    · exact (by decide : ∀ b ∈ biliSegB ++ titleLit, b ≠ '>') b hb'
    · exact hds_gt b hb'
    · subst hb'; decide
  have hrevne : ds.reverse ≠ [] := by
    simpa [List.reverse_eq_nil_iff] using hne
  have e2 : (((biliSegB ++ titleLit) ++ ds ++ ['"']) : List Char).reverse
      = '"' :: (ds.reverse ++ ('"' :: ("=eltit".toList ++ biliSegB.reverse))) := by
    simp [List.reverse_append]
    decide
  have e3 : takeDigits (ds.reverse ++ ('"' :: ("=eltit".toList ++ biliSegB.reverse)))
      = (ds.reverse, '"' :: ("=eltit".toList ++ biliSegB.reverse)) :=
    takeDigits_append _ _ (fun x hx => hd x (List.mem_reverse.mp hx)) (by decide)
  have e4 : ('"' :: ("=eltit".toList ++ biliSegB.reverse))
      = titleRevLit ++ biliSegB.reverse := by
    decide
  have e5 : (ds ++ (spanCloseLit ++ suf)) = ds ++ '<' :: ("/span>".toList ++ suf) := by
    simp [spanCloseLit]
  have e6 : takeDigits (ds ++ '<' :: ("/span>".toList ++ suf))
      = (ds, '<' :: ("/span>".toList ++ suf)) :=
    takeDigits_append _ _ hd (by decide)
  have e7 : ('<' :: ("/span>".toList ++ suf)) = spanCloseLit ++ suf := by
    simp [spanCloseLit]
  rw [e1]
  simp only [biliAt, stripLit_append, Option.some_bind,
    splitAtFirst_append _ _ (by decide : ∀ b ∈ biliSegA, b ≠ '>'),
    (by decide : endsWithLit biliTextLit biliSegA = true), if_true,
    splitAtFirst_append _ _ hseg2, e2, e3]
  rw [if_neg hrevne]
  rw [e4, stripLit_append]
  simp only [Option.some_bind, List.reverse_reverse,
    (by decide : hasInfixLit biliNumLit biliSegB = true), if_true, e5, e6]
  rw [if_neg hne]
  rw [e7, stripLit_append]
  rfl

def dySegA : List Char := " class=\"Q1A_pjwq ELUP9h2u\" data-e2e=\"user-info-fans\"".toList
def dySegM : List Char := " class=\"uvGnYXqn\"".toList
def dySegT : List Char := " class=\"C1cxu0Vq\"".toList

theorem dyPre_split :
    dyPreStr.toList
      = divOpenLit ++ (dySegA ++ '>' :: (divOpenLit ++ (dySegM ++ '>' ::
          (dyLabelLit ++ (divOpenLit ++ (dySegT ++ ['>'])))))) := by
  decide

theorem dyAt_inst (ds suf : List Char) (hne : ds ≠ [])
    (hd : ∀ c ∈ ds, isDig c = true) :
    dyAt (dyInstL ds ++ suf) = some (parseDigits ds) := by
  have e1 : dyInstL ds ++ suf
      = divOpenLit ++ (dySegA ++ '>' :: (divOpenLit ++ (dySegM ++ '>' ::
          (dyLabelLit ++ (divOpenLit ++ (dySegT ++ '>' ::
            (ds ++ (divCloseLit ++ (divCloseLit ++ suf))))))))) := by
    rw [dyInstL, dyPre_split]
    simp [List.append_assoc, divCloseLit]
  have e5 : (ds ++ (divCloseLit ++ (divCloseLit ++ suf)))
      = ds ++ '<' :: ("/div>".toList ++ (divCloseLit ++ suf)) := by
    simp [divCloseLit]
  have e6 : takeDigits (ds ++ '<' :: ("/div>".toList ++ (divCloseLit ++ suf)))
      = (ds, '<' :: ("/div>".toList ++ (divCloseLit ++ suf))) :=
    takeDigits_append _ _ hd (by decide)
  have e7 : ('<' :: ("/div>".toList ++ (divCloseLit ++ suf)))
      = divCloseLit ++ (divCloseLit ++ suf) := by
    simp [divCloseLit]
  rw [e1]
  simp only [dyAt, stripLit_append, Option.some_bind,
    splitAtFirst_append _ _ (by decide : ∀ b ∈ dySegA, b ≠ '>'),
    (by decide : hasInfixLit dyFansLit dySegA = true), if_true]
  apply searchFirst_of_some
  simp only [dyMiddleAt, stripLit_append, Option.some_bind,
    splitAtFirst_append _ _ (by decide : ∀ b ∈ dySegM, b ≠ '>')]
  apply searchFirst_of_some
  simp only [dyTailAt, stripLit_append, Option.some_bind,
    splitAtFirst_append _ _ (by decide : ∀ b ∈ dySegT, b ≠ '>'), e5, e6]
  rw [if_neg hne]
  rw [e7, stripLit_append]
  rfl

def xhsSegA : List Char := " data-v-18b45ae8=\"\"".toList

theorem xhsPre_split :
    xhsPreStr.toList = xhsCountLit ++ (xhsSegA ++ ['>']) := by
  decide

theorem xhsPost_split :
    xhsPostStr.toList = xhsMidLit ++ (xhsSegA ++ '>' :: xhsEndLit) := by
  decide

theorem xhsAt_inst (ds suf : List Char) (hne : ds ≠ [])
    (hd : ∀ c ∈ ds, isDig c = true) :
    xhsAt (xhsInstL ds ++ suf) = some (parseDigits ds) := by
  have e1 : xhsInstL ds ++ suf
      = xhsCountLit ++ (xhsSegA ++ '>' ::
          (ds ++ (xhsMidLit ++ (xhsSegA ++ '>' :: (xhsEndLit ++ suf))))) := by
    rw [xhsInstL, xhsPre_split, xhsPost_split]
    simp [List.append_assoc]
  have e5 : (ds ++ (xhsMidLit ++ (xhsSegA ++ '>' :: (xhsEndLit ++ suf))))
      = ds ++ '<' :: ("/span><span class=\"shows\"".toList ++
          (xhsSegA ++ '>' :: (xhsEndLit ++ suf))) := by
    simp [xhsMidLit]
  have e6 : takeDigits (ds ++ '<' :: ("/span><span class=\"shows\"".toList ++
        (xhsSegA ++ '>' :: (xhsEndLit ++ suf))))
      = (ds, '<' :: ("/span><span class=\"shows\"".toList ++
          (xhsSegA ++ '>' :: (xhsEndLit ++ suf)))) :=
    takeDigits_append _ _ hd (by decide)
  have e7 : ('<' :: ("/span><span class=\"shows\"".toList ++
        (xhsSegA ++ '>' :: (xhsEndLit ++ suf))))
      = xhsMidLit ++ (xhsSegA ++ '>' :: (xhsEndLit ++ suf)) := by
    simp [xhsMidLit]
  rw [e1]
  simp only [xhsAt, stripLit_append, Option.some_bind,
    splitAtFirst_append _ _ (by decide : ∀ b ∈ xhsSegA, b ≠ '>'), e5, e6]
  rw [if_neg hne]
  rw [e7, stripLit_append]
  simp only [Option.some_bind,
    splitAtFirst_append _ _ (by decide : ∀ b ∈ xhsSegA, b ≠ '>'),
    stripLit_append]

/-- A bilibili match can only start at a `<`. -/
theorem biliAt_head_ne {c : Char} (t : List Char) (h : c ≠ '<') :
    biliAt (c :: t) = none := by
  have e : stripLit spanOpenLit (c :: t) = none := by
    rw [(by decide : spanOpenLit = '<' :: "span".toList)]
    exact stripLit_cons_ne _ _ (Ne.symm h)
  simp [biliAt, e]

/-- A douyin match can only start at a `<`. -/
theorem dyAt_head_ne {c : Char} (t : List Char) (h : c ≠ '<') :
    dyAt (c :: t) = none := by
  have e : stripLit divOpenLit (c :: t) = none := by
    rw [(by decide : divOpenLit = '<' :: "div".toList)]
    exact stripLit_cons_ne _ _ (Ne.symm h)
  simp [dyAt, e]

/-- A xiaohongshu match can only start at a `<`. -/
theorem xhsAt_head_ne {c : Char} (t : List Char) (h : c ≠ '<') :
    xhsAt (c :: t) = none := by
  have e : stripLit xhsCountLit (c :: t) = none := by
    rw [(by decide : xhsCountLit = '<' :: "span class=\"count\"".toList)]
    exact stripLit_cons_ne _ _ (Ne.symm h)
  simp [xhsAt, e]

/-- Extraction on any snapshot that carries the canonical well-formed
pattern instance with digit string `natDigits n`, preceded by tag-free
text, yields exactly `n`. -/
theorem extract_inst (p : Platform) (n : Nat) (pre suf : List Char)
    (hpre : ∀ c ∈ pre, c ≠ '<') :
    extract p (String.mk (pre ++ instHtmlL p (natDigits n) ++ suf)) = some n := by
  have hne := natDigits_ne_nil n
  have hd := natDigits_all_dig n
  have hparse := parseDigits_natDigits n
  cases p with
  | bilibili =>
    show searchFirst biliAt (pre ++ instHtmlL .bilibili (natDigits n) ++ suf)
        = some n
    rw [List.append_assoc]
    simp only [instHtmlL]
    rw [
      searchFirst_skip pre _ (fun c hc t => biliAt_head_ne t (hpre c hc)),
      searchFirst_of_some (biliAt_inst _ suf hne hd), hparse]
  | douyin =>
    show searchFirst dyAt (pre ++ instHtmlL .douyin (natDigits n) ++ suf)
        = some n
    rw [List.append_assoc]
    simp only [instHtmlL]
    rw [
      searchFirst_skip pre _ (fun c hc t => dyAt_head_ne t (hpre c hc)),
      searchFirst_of_some (dyAt_inst _ suf hne hd), hparse]
  | xiaohongshu =>
    show searchFirst xhsAt (pre ++ instHtmlL .xiaohongshu (natDigits n) ++ suf)
        = some n
    rw [List.append_assoc]
    simp only [instHtmlL]
    rw [
      searchFirst_skip pre _ (fun c hc t => xhsAt_head_ne t (hpre c hc)),
      searchFirst_of_some (xhsAt_inst _ suf hne hd), hparse]

/-! ### A match always requires the 粉 character

Every one of the three patterns contains a literal with the character 粉;
hence text without it cannot match, whatever its other structure. -/

theorem takeDigits_rest_mem (l : List Char) :
    ∀ x ∈ (takeDigits l).2, x ∈ l := by
  induction l with
  | nil => simp [takeDigits]
  | cons c t ih =>
    by_cases hc : isDig c
    · simp only [takeDigits, hc, if_true]
      exact fun x hx => List.mem_cons_of_mem _ (ih x hx)
    · simp only [takeDigits, hc]
      exact fun x hx => hx

theorem biliAt_some_mem {t : List Char} {n : Nat} (h : biliAt t = some n) :
    '粉' ∈ t := by
  unfold biliAt at h
  cases h1 : stripLit spanOpenLit t with
  | none => rw [h1] at h; cases h
  | some r1 =>
    rw [h1] at h
    simp only [Option.some_bind] at h
    cases h2 : splitAtFirst '>' r1 with
    | none => rw [h2] at h; cases h
    | some s1 =>
      rw [h2] at h
      simp only [Option.some_bind] at h
      by_cases he : endsWithLit biliTextLit s1.1
      · rw [if_pos he] at h
        cases h3 : stripLit biliMidLit s1.2 with
        | none => rw [h3] at h; cases h
        | some r3 =>
          have hmem : '粉' ∈ s1.2 := stripLit_lit_mem h3 '粉' (by decide)
          obtain ⟨seg, rest⟩ := s1
          have := (splitAtFirst_mem_of_some h2).2 '粉' hmem
          exact stripLit_mem_of_some h1 '粉' this
      · rw [if_neg he] at h; cases h

theorem dyMid_some_mem {m rem : List Char} (h : dyMiddleAt m = some rem) :
    '粉' ∈ m := by
  unfold dyMiddleAt at h
  cases h1 : stripLit divOpenLit m with
  | none => rw [h1] at h; cases h
  | some a =>
    rw [h1] at h
    simp only [Option.some_bind] at h
    cases h2 : splitAtFirst '>' a with
    | none => rw [h2] at h; cases h
    | some s =>
      rw [h2] at h
      simp only [Option.some_bind] at h
      have hmem : '粉' ∈ s.2 := stripLit_lit_mem h '粉' (by decide)
      obtain ⟨seg, rest⟩ := s
      exact stripLit_mem_of_some h1 '粉' ((splitAtFirst_mem_of_some h2).2 '粉' hmem)

theorem dyAt_some_mem {t : List Char} {n : Nat} (h : dyAt t = some n) :
    '粉' ∈ t := by
  unfold dyAt at h
  cases h1 : stripLit divOpenLit t with
  | none => rw [h1] at h; cases h
  | some r1 =>
    rw [h1] at h
    simp only [Option.some_bind] at h
    cases h2 : splitAtFirst '>' r1 with
    | none => rw [h2] at h; cases h
    | some s1 =>
      rw [h2] at h
      simp only [Option.some_bind] at h
      by_cases he : hasInfixLit dyFansLit s1.1
      · rw [if_pos he] at h
        have hmem : '粉' ∈ s1.2 := by
          refine searchFirst_mem_of_some (fun m x hm => ?_) h
          cases hmid : dyMiddleAt m with
          | none => rw [hmid] at hm; cases hm
          | some rem => exact dyMid_some_mem hmid
        obtain ⟨seg, rest⟩ := s1
        exact stripLit_mem_of_some h1 '粉'
          ((splitAtFirst_mem_of_some h2).2 '粉' hmem)
      · rw [if_neg he] at h; cases h

theorem xhsAt_some_mem {t : List Char} {n : Nat} (h : xhsAt t = some n) :
    '粉' ∈ t := by
  unfold xhsAt at h
  cases h1 : stripLit xhsCountLit t with
  | none => rw [h1] at h; cases h
  | some r1 =>
    rw [h1] at h
    simp only [Option.some_bind] at h
    cases h2 : splitAtFirst '>' r1 with
    | none => rw [h2] at h; cases h
    | some s1 =>
      rw [h2] at h
      simp only [Option.some_bind] at h
      by_cases hp : (takeDigits s1.2).1 = []
      · rw [if_pos hp] at h; cases h
      · rw [if_neg hp] at h
        cases h3 : stripLit xhsMidLit (takeDigits s1.2).2 with
        | none => rw [h3] at h; cases h
        | some r3 =>
          rw [h3] at h
          simp only [Option.some_bind] at h
          cases h4 : splitAtFirst '>' r3 with
          | none => rw [h4] at h; cases h
          | some s2 =>
            rw [h4] at h
            simp only [Option.some_bind] at h
            cases h5 : stripLit xhsEndLit s2.2 with
            | none => rw [h5] at h; cases h
            | some r5 =>
              have hmem : '粉' ∈ s2.2 := stripLit_lit_mem h5 '粉' (by decide)
              obtain ⟨sg2, rs2⟩ := s2
              have hmem3 : '粉' ∈ r3 :=
                (splitAtFirst_mem_of_some h4).2 '粉' hmem
              have hmem2 : '粉' ∈ (takeDigits s1.2).2 :=
                stripLit_mem_of_some h3 '粉' hmem3
              have hmem1 : '粉' ∈ s1.2 := takeDigits_rest_mem _ '粉' hmem2
              obtain ⟨sg1, rs1⟩ := s1
              exact stripLit_mem_of_some h1 '粉'
                ((splitAtFirst_mem_of_some h2).2 '粉' hmem1)

/-- Snapshot text without the 粉 character never matches any platform. -/
theorem extract_none_of_not_mem (p : Platform) (l : List Char)
    (h : '粉' ∉ l) : extract p (String.mk l) = none := by
  cases he : extract p (String.mk l) with
  | none => rfl
  | some n =>
    exfalso
    apply h
    cases p with
    | bilibili =>
      exact searchFirst_mem_of_some (fun t x ht => biliAt_some_mem ht) he
    | douyin =>
      exact searchFirst_mem_of_some (fun t x ht => dyAt_some_mem ht) he
    | xiaohongshu =>
      exact searchFirst_mem_of_some (fun t x ht => xhsAt_some_mem ht) he

/-! ### Dictionary lemmas -/

theorem dictGet_set_self {α : Type} (k : String) (v : α) (l : List (String × α)) :
    dictGet k (dictSet k v l) = some v := by
  induction l with
  | nil => simp [dictGet, dictSet]
  | cons p t ih =>
    obtain ⟨k', v'⟩ := p
    by_cases h : k' = k
    · simp [dictGet, dictSet, h]
    · simp [dictGet, dictSet, h, ih]

theorem dictGet_set_other {α : Type} {k k' : String} (v : α)
    (l : List (String × α)) (h : k' ≠ k) :
    dictGet k' (dictSet k v l) = dictGet k' l := by
  induction l with
  | nil => simp [dictGet, dictSet, Ne.symm h]
  | cons p t ih =>
    obtain ⟨k0, v0⟩ := p
    by_cases h0 : k0 = k
    · subst h0
      simp [dictGet, dictSet, Ne.symm h]
    · simp only [dictSet, if_neg h0]
      by_cases h1 : k0 = k'
      · simp [dictGet, h1]
      · simp [dictGet, h1, ih]

/-! ### Timestamp parser lemmas -/

theorem takeN_append (l r : List Char) :
    takeN l.length (l ++ r) = some (l, r) := by
  induction l with
  | nil => simp [takeN]
  | cons c t ih => simp [takeN, ih]

theorem tsAt_head_not_dig {c : Char} (t : List Char) (h : isDig c = false) :
    tsAt (c :: t) = none := by
  unfold tsAt
  cases h8 : takeN 8 (c :: t) with
  | none => rfl
  | some s1 =>
    simp only [Option.some_bind]
    obtain ⟨d8, r⟩ := s1
    have : ∃ a, d8 = c :: a := by
      simp only [takeN] at h8
      cases h7 : takeN 7 t with
      | none => rw [h7] at h8; cases h8
      | some s =>
        rw [h7] at h8
        simp at h8
        exact ⟨s.1, h8.1.symm⟩
    obtain ⟨a, ha⟩ := this
    subst ha
    simp [List.all_cons, h]

/-- The eight date digits. -/
def dtChars (y mo d : Nat) : List Char :=
  natPad 4 y ++ natPad 2 mo ++ natPad 2 d

/-- The six time digits. -/
def tmChars (hh mi ss : Nat) : List Char :=
  natPad 2 hh ++ natPad 2 mi ++ natPad 2 ss

theorem tsAt_inst (y mo d hh mi ss : Nat) (suf : List Char) :
    tsAt (dtChars y mo d ++ '_' ::
        (tmChars hh mi ss ++ suf)) = some (dtChars y mo d, tmChars hh mi ss) := by
  have l8 : (dtChars y mo d).length = 8 := by
    simp [dtChars, natPad_length]
  have l6 : (tmChars hh mi ss).length = 6 := by
    simp [tmChars, natPad_length]
  have a8 : (dtChars y mo d).all isDig = true := by
    rw [List.all_eq_true]
    intro c hc
    rcases List.mem_append.mp hc with hc | hc
    · rcases List.mem_append.mp hc with hc | hc
      · exact natPad_all_dig _ _ c hc
      · exact natPad_all_dig _ _ c hc
    · exact natPad_all_dig _ _ c hc
  have a6 : (tmChars hh mi ss).all isDig = true := by
    rw [List.all_eq_true]
    intro c hc
    rcases List.mem_append.mp hc with hc | hc
    · rcases List.mem_append.mp hc with hc | hc
      · exact natPad_all_dig _ _ c hc
      · exact natPad_all_dig _ _ c hc
    · exact natPad_all_dig _ _ c hc
  unfold tsAt
  rw [show (8 : Nat) = (dtChars y mo d).length from l8.symm,
    takeN_append]
  simp only [Option.some_bind, a8, if_true]
  rw [show (6 : Nat) = (tmChars hh mi ss).length from l6.symm, takeN_append]
  simp only [Option.some_bind, a6, if_true]

theorem dtChars_take4 {y : Nat} (mo d : Nat) (hy : y < 10000) :
    parseDigits ((natPad 4 y ++ natPad 2 mo ++ natPad 2 d).take 4) = y := by
  rw [List.append_assoc, List.take_left' (natPad_length 4 y)]
  exact parseDigits_natPad 4 y (by norm_num [hy])

theorem dtChars_mid2 {mo : Nat} (y d : Nat) (hmo : mo < 100) :
    parseDigits (((natPad 4 y ++ natPad 2 mo ++ natPad 2 d).drop 4).take 2) = mo := by
  rw [List.append_assoc, List.drop_left' (natPad_length 4 y),
    List.take_left' (natPad_length 2 mo)]
  exact parseDigits_natPad 2 mo (by norm_num [hmo])

theorem dtChars_drop6 {d : Nat} (y mo : Nat) (hd : d < 100) :
    parseDigits ((natPad 4 y ++ natPad 2 mo ++ natPad 2 d).drop 6) = d := by
  rw [List.drop_left'
    (show (natPad 4 y ++ natPad 2 mo).length = 6 from by simp [natPad_length])]
  exact parseDigits_natPad 2 d (by norm_num [hd])

theorem tmChars_take2 {hh : Nat} (mi ss : Nat) (h : hh < 100) :
    parseDigits ((natPad 2 hh ++ natPad 2 mi ++ natPad 2 ss).take 2) = hh := by
  rw [List.append_assoc, List.take_left' (natPad_length 2 hh)]
  exact parseDigits_natPad 2 hh (by norm_num [h])

theorem tmChars_mid2 {mi : Nat} (hh ss : Nat) (h : mi < 100) :
    parseDigits (((natPad 2 hh ++ natPad 2 mi ++ natPad 2 ss).drop 2).take 2) = mi := by
  rw [List.append_assoc, List.drop_left' (natPad_length 2 hh),
    List.take_left' (natPad_length 2 mi)]
  exact parseDigits_natPad 2 mi (by norm_num [h])

theorem tmChars_drop4 {ss : Nat} (hh mi : Nat) (h : ss < 100) :
    parseDigits ((natPad 2 hh ++ natPad 2 mi ++ natPad 2 ss).drop 4) = ss := by
  rw [List.drop_left'
    (show (natPad 2 hh ++ natPad 2 mi).length = 4 from by simp [natPad_length])]
  exact parseDigits_natPad 2 ss (by norm_num [h])

/-- The timestamp parser on a filename whose first digit starts the
`8-digit _ 6-digit` token pair, with in-range fields: it returns the
combined ISO timestamp. -/
theorem extract_timestamp_inst (pre suf : List Char) (y mo d hh mi ss : Nat)
    (hpre : ∀ c ∈ pre, isDig c = false)
    (hy : y < 10000) (hmo : mo < 100) (hd : d < 100)
    (hhh : hh < 100) (hmi : mi < 100) (hss : ss < 100)
    (hv : validDT y mo d hh mi ss = true) :
    extract_timestamp_from_filename
        (String.mk (pre ++ dtChars y mo d ++ '_' :: (tmChars hh mi ss ++ suf)))
      = .iso (isoOf y mo d hh mi ss) := by
  show (match searchFirst tsAt (pre ++ dtChars y mo d ++ '_' ::
      (tmChars hh mi ss ++ suf)) with
    | some (d8, t6) =>
      let y := parseDigits (d8.take 4)
      let mo := parseDigits ((d8.drop 4).take 2)
      let d := parseDigits (d8.drop 6)
      let hh := parseDigits (t6.take 2)
      let mi := parseDigits ((t6.drop 2).take 2)
      let ss := parseDigits (t6.drop 4)
      if validDT y mo d hh mi ss then TSResult.iso (isoOf y mo d hh mi ss)
      else TSResult.error
    | none => TSResult.fallbackNow) = TSResult.iso (isoOf y mo d hh mi ss)
  rw [List.append_assoc,
    searchFirst_skip pre _ (fun c hc t => tsAt_head_not_dig t (hpre c hc)),
    searchFirst_of_some (tsAt_inst y mo d hh mi ss suf)]
  simp only [dtChars, tmChars, dtChars_take4 mo d hy, dtChars_mid2 y d hmo,
    dtChars_drop6 y mo hd, tmChars_take2 mi ss hhh, tmChars_mid2 hh ss hmi,
    tmChars_drop4 hh mi hss, hv, if_true]

/-! ### Merge lemmas -/

theorem append_data_overwrite (h : History) (e : Entry) (c : Nat)
    (hc : dictGet2 h (entryDate e) (platStr e.platform) = some c) :
    dictGet2 (append_data h e).1 (entryDate e) (platStr e.platform)
        = some e.followers
      ∧ (append_data h e).2 = true := by
  cases hm : dictGet (entryDate e) h with
  | none => simp [dictGet2, hm] at hc
  | some m =>
    have hcm : dictGet (platStr e.platform) m = some c := by
      simpa [dictGet2, hm] using hc
    constructor
    · simp [append_data, dictGet2, hm, dictGet_set_self]
    · simp [append_data, hm, hcm]

theorem append_data_frame (h : History) (e : Entry) (d' p' : String)
    (hne : d' ≠ entryDate e ∨ p' ≠ platStr e.platform) :
    dictGet2 (append_data h e).1 d' p' = dictGet2 h d' p' := by
  by_cases hd : d' = entryDate e
  · have hp : p' ≠ platStr e.platform := by
      rcases hne with hne | hne
      · exact absurd hd hne
      · exact hne
    subst hd
    cases hm : dictGet (entryDate e) h with
    | none =>
      simp [append_data, dictGet2, hm, dictGet_set_self,
        dictGet_set_other _ _ hp, dictGet, Ne.symm hp]
    | some m =>
      simp [append_data, dictGet2, hm, dictGet_set_self,
        dictGet_set_other _ _ hp]
  · simp [append_data, dictGet2, dictGet_set_other _ _ hd]

/-! ### Batch driver lemmas -/

theorem process_html_file_fail (now : String) (f : HFile)
    (h : platformOf f.name = none
      ∨ ∃ p, platformOf f.name = some p ∧ extract p f.content = none) :
    process_html_file now f = .extractFail := by
  rcases h with h | ⟨p, hp, hx⟩
  · simp [process_html_file, h]
  · simp [process_html_file, hp, hx]

theorem runBatch_abort (now : String) (pre : List HFile) (bad : HFile)
    (rest : List HFile) (h : History)
    (hpre : ∀ f ∈ pre, ∃ e, process_html_file now f = .entry e)
    (hbad : process_html_file now bad = .extractFail) :
    runBatch now (pre ++ bad :: rest) h = (batchDisk now pre h, pre.length, true) := by
  induction pre generalizing h with
  | nil => simp [runBatch, hbad, batchDisk]
  | cons f t ih =>
    obtain ⟨e, he⟩ := hpre f (List.mem_cons_self _ _)
    have ht : ∀ g ∈ t, ∃ e, process_html_file now g = .entry e :=
      fun g hg => hpre g (List.mem_cons_of_mem _ hg)
    rw [List.cons_append]
    simp only [runBatch, he]
    rw [ih _ ht]
    simp [batchDisk, he]

theorem runBatch_all_ok (now : String) (files : List HFile) (h : History)
    (hok : ∀ f ∈ files, ∃ e, process_html_file now f = .entry e) :
    runBatch now files h = (batchDisk now files h, files.length, false) := by
  induction files generalizing h with
  | nil => simp [runBatch, batchDisk]
  | cons f t ih =>
    obtain ⟨e, he⟩ := hok f (List.mem_cons_self _ _)
    have ht : ∀ g ∈ t, ∃ e, process_html_file now g = .entry e :=
      fun g hg => hok g (List.mem_cons_of_mem _ hg)
    simp only [runBatch, he]
    rw [ih _ ht]
    simp [batchDisk, he]

theorem process_all_ret_none (dirExists : Bool) (files : List HFile)
    (now : String) (h : History) :
    (process_all_html_files dirExists files now h).ret = none := by
  unfold process_all_html_files
  cases dirExists with
  | false => rfl
  | true => cases files with
    | nil => rfl
    | cons f t => rfl

/-! ### Growth report lemma -/

theorem growthFor_eq (h : History) (p : String) (d0 d1 : String)
    (ds : List String) (fc lc : Nat)
    (hsort : sortedKeys h = d0 :: d1 :: ds)
    (hfc : dictGet2 h d0 p = some fc)
    (hlc : dictGet2 h (lastOf d1 ds) p = some lc) :
    growthFor h p = some ((lc : Int) - (fc : Int),
      if 0 < fc then (((lc : ℚ) - (fc : ℚ)) / (fc : ℚ)) * 100 else 0) := by
  unfold growthFor
  rw [hsort]
  simp only [hfc, hlc]

/-! ## Claim theorems -/

/-- C1: for every platform of the fixed set and every snapshot text
containing that platform's well-formed follower-count pattern carrying the
decimal digits of `n` (with no tag-opening character before the pattern, so
that the pattern occurrence is the leftmost match), extraction returns
exactly `n`, including `n = 0`. -/
theorem spec_c1 (p : Platform) (n : Nat) (pre suf : List Char)
    (hpre : ∀ c ∈ pre, c ≠ '<') :
    extract p (String.mk (pre ++ instHtmlL p (natDigits n) ++ suf)) = some n :=
  extract_inst p n pre suf hpre

/-- Witness for C1 at platform bilibili, count 532, surrounding text. -/
theorem spec_c1_witness :
    extract .bilibili
        (String.mk ("x ".toList ++ instHtmlL .bilibili (natDigits 532) ++ " y".toList))
      = some 532 :=
  spec_c1 .bilibili 532 "x ".toList " y".toList (by decide)

/-- C2: when the structural pattern is not present (no 粉 label character
at all), extraction returns `none`, and a genuine follower count of zero is
returned as `some 0`, which is distinct from `none`. -/
theorem spec_c2 (p : Platform) :
    (∀ l : List Char, '粉' ∉ l → extract p (String.mk l) = none)
    ∧ extract p (String.mk (instHtmlL p (natDigits 0))) = some 0
    ∧ some 0 ≠ (none : Option Nat) := by
  refine ⟨fun l hl => extract_none_of_not_mem p l hl, ?_, by simp⟩
  have h := extract_inst p 0 [] [] (by simp)
  simpa using h

/-- Witness for C2 at platform douyin on text without the pattern. -/
theorem spec_c2_witness :
    extract .douyin (String.mk "hello world".toList) = none :=
  (spec_c2 .douyin).1 "hello world".toList (by decide)

/-- The entry merged in the C3 scenario. -/
def c3entry : Entry :=
  ⟨.bilibili, 532, "2025-11-12T10:00:00", "bilibili_20251112_100000.html"⟩

/-- C3: merging count 532 for (2025-11-12, bilibili) into the empty store
yields exactly that singleton mapping with no overwrite warning; and
merging into a store that already has a (different) count for the same
date and platform overwrites it — the lookup afterwards yields only the
new value — and raises the overwrite warning. -/
theorem spec_c3 :
    append_data [] c3entry = ([("2025-11-12", [("bilibili", 532)])], false)
    ∧ ∀ (h : History) (e : Entry) (c : Nat),
        dictGet2 h (entryDate e) (platStr e.platform) = some c →
        c ≠ e.followers →
        dictGet2 (append_data h e).1 (entryDate e) (platStr e.platform)
            = some e.followers
        ∧ (append_data h e).2 = true := by
  refine ⟨by decide, fun h e c hc _ => append_data_overwrite h e c hc⟩

/-- Witness for C3's overwrite branch at a concrete store. -/
theorem spec_c3_witness :
    dictGet2 (append_data [("2025-11-12", [("bilibili", 10)])] c3entry).1
        (entryDate c3entry) (platStr c3entry.platform) = some c3entry.followers
    ∧ (append_data [("2025-11-12", [("bilibili", 10)])] c3entry).2 = true :=
  spec_c3.2 [("2025-11-12", [("bilibili", 10)])] c3entry 10 (by decide) (by decide)

/-- C4: loading an absent history file yields the empty mapping (without a
load warning); loading a malformed one logs the warning and yields the
empty mapping.  `load_existing_data` is a total function into
`History × Bool`: no outcome is modelled as raising. -/
theorem spec_c4 :
    load_existing_data .absent = ([], false)
    ∧ load_existing_data .malformed = ([], true) :=
  ⟨rfl, rfl⟩

/-- C5: in a batch run, as soon as a file has no recognized platform token
in its name, or has one but its pattern extraction fails, the run aborts
(the exception flag is set), the result does not depend on the remaining
files, the persisted history is exactly the merges of the files before the
failing one, and the loop counter equals their number. -/
theorem spec_c5 (now : String) (pre : List HFile) (bad : HFile)
    (rest : List HFile) (h : History)
    (hpre : ∀ f ∈ pre, ∃ e, process_html_file now f = .entry e)
    (hbad : platformOf bad.name = none
      ∨ ∃ p, platformOf bad.name = some p ∧ extract p bad.content = none) :
    runBatch now (pre ++ bad :: rest) h = (batchDisk now pre h, pre.length, true)
    ∧ runBatch now (pre ++ bad :: rest) h = runBatch now (pre ++ [bad]) h := by
  have hfail := process_html_file_fail now bad hbad
  have h1 := runBatch_abort now pre bad rest h hpre hfail
  have h2 := runBatch_abort now pre bad [] h hpre hfail
  exact ⟨h1, h1.trans h2.symm⟩

/-- A good bilibili snapshot file for the C5 witness. -/
def c5good : HFile :=
  ⟨"bilibili_20251112_100000.html",
   "<span data-v-8c500df6=\"\" class=\"nav-statistics__item-text\">粉丝数</span><span data-v-8c500df6=\"\" class=\"nav-statistics__item-num\" title=\"532\">532</span>"⟩

/-- A snapshot file with no recognized platform token, for the C5 witness. -/
def c5bad : HFile := ⟨"unknown_20251112_100000.html", "no data here"⟩

/-- A file after the failing one, for the C5 witness. -/
def c5rest : HFile := ⟨"xiaohongshu_20251112_100000.html", "whatever"⟩

/-- Witness for C5 on a concrete run of three files. -/
theorem spec_c5_witness :
    runBatch "2025-11-12T00:00:00" ([c5good] ++ c5bad :: [c5rest]) []
        = (batchDisk "2025-11-12T00:00:00" [c5good] [], [c5good].length, true)
    ∧ runBatch "2025-11-12T00:00:00" ([c5good] ++ c5bad :: [c5rest]) []
        = runBatch "2025-11-12T00:00:00" ([c5good] ++ [c5bad]) [] := by
  refine spec_c5 "2025-11-12T00:00:00" [c5good] c5bad [c5rest] [] ?_ (Or.inl (by decide))
  intro f hf
  have hfe : f = c5good := by simpa using hf
  subst hfe
  exact ⟨⟨.bilibili, 532, "2025-11-12T10:00:00", c5good.name⟩, by decide⟩

/-- The history used to refute C6. -/
def c6hist : History :=
  [("2025-01-01", [("bilibili", 100)]),
   ("2025-01-02", [("bilibili", 150), ("douyin", 5)])]

/-- C6 as stated is false: `display_summary` does not use the per-platform
earliest/latest dates; it uses the globally first and last date keys and
silently skips a platform missing at either.  Here douyin has a value
(5 at 2025-01-02, its earliest and latest date with a value), yet no growth
line is produced for it. -/
theorem spec_c6_counterexample :
    growthFor c6hist "douyin" = none
    ∧ dictGet2 c6hist "2025-01-02" "douyin" = some 5 := by
  exact ⟨by decide, by decide⟩

/-- C6 (amended): for a store with at least two (sorted) date keys, and a
platform having a value at the globally earliest and at the globally
latest date, the growth line reports the difference of those two values
and the percentage `(last - first) / first * 100`, taken as `0` when the
first value is `0`; platforms missing at either boundary date are
omitted. -/
theorem spec_c6 (h : History) (p : String) (d0 d1 : String)
    (ds : List String) (fc lc : Nat)
    (hsort : sortedKeys h = d0 :: d1 :: ds)
    (hfc : dictGet2 h d0 p = some fc)
    (hlc : dictGet2 h (lastOf d1 ds) p = some lc) :
    growthFor h p = some ((lc : Int) - (fc : Int),
      if 0 < fc then (((lc : ℚ) - (fc : ℚ)) / (fc : ℚ)) * 100 else 0) :=
  growthFor_eq h p d0 d1 ds fc lc hsort hfc hlc

/-- The history for the C6 witness: bilibili goes from 100 to 150. -/
def c6hist2 : History :=
  [("2025-01-01", [("bilibili", 100)]), ("2025-01-02", [("bilibili", 150)])]

/-- Witness for C6 (amended): first value 100, last value 150 reports
+50 and +50.00%. -/
theorem spec_c6_witness : growthFor c6hist2 "bilibili" = some (50, 50) := by
  have h := spec_c6 c6hist2 "bilibili" "2025-01-01" "2025-01-02" [] 100 150
    (by decide) (by decide) (by decide)
  rw [h]
  norm_num

/-- A directory with one good bilibili snapshot, for C7. -/
def c7file : HFile :=
  ⟨"bilibili_20251112_100000.html",
   "<span data-v-8c500df6=\"\" class=\"nav-statistics__item-text\">粉丝数</span><span data-v-8c500df6=\"\" class=\"nav-statistics__item-num\" title=\"77\">77</span>"⟩

/-- C7 as stated is false: `process_all_html_files` returns `None` even
when one file was successfully extracted, merged and persisted; the count
is only computed (and printed), never returned. -/
theorem spec_c7_counterexample :
    (process_all_html_files true [c7file] "2025-11-12T00:00:00" []).ret = none
    ∧ (process_all_html_files true [c7file] "2025-11-12T00:00:00" []).processed = 1 := by
  exact ⟨by decide, by decide⟩

/-- C7 (amended): the per-file loop counts exactly the successfully
processed files (all of them when every file succeeds), and the function
itself always returns `None`. -/
theorem spec_c7 (now : String) (files : List HFile) (h : History)
    (hok : ∀ f ∈ files, ∃ e, process_html_file now f = .entry e) :
    (runBatch now files h).2.1 = files.length
    ∧ ∀ (de : Bool) (fs : List HFile) (h' : History),
        (process_all_html_files de fs now h').ret = none := by
  constructor
  · rw [runBatch_all_ok now files h hok]
  · exact fun de fs h' => process_all_ret_none de fs now h'

/-- Witness for C7 (amended) on a one-file directory. -/
theorem spec_c7_witness :
    (runBatch "2025-11-12T00:00:00" [c7file] []).2.1 = [c7file].length
    ∧ ∀ (de : Bool) (fs : List HFile) (h' : History),
        (process_all_html_files de fs "2025-11-12T00:00:00" h').ret = none := by
  refine spec_c7 "2025-11-12T00:00:00" [c7file] [] ?_
  intro f hf
  have hfe : f = c7file := by simpa using hf
  subst hfe
  exact ⟨⟨.bilibili, 77, "2025-11-12T10:00:00", c7file.name⟩, by decide⟩

/-- C8 as stated is false: the delimiter between the 8-digit and 6-digit
tokens must be an underscore, not an arbitrary single non-digit character.
With `-` as delimiter the parser takes the wall-clock fallback instead of
parsing 2025-11-12. -/
theorem spec_c8_counterexample :
    extract_timestamp_from_filename "platformX-20251112-154753.ext"
      = .fallbackNow := by
  decide

/-- C8 (amended): for every filename in which an 8-digit token is followed
by an underscore and a 6-digit token (no digits occurring earlier in the
name), with field values in range for `%Y%m%d_%H%M%S`, the parser returns
the combined local ISO timestamp; in particular
`platformX_20251112_154753.ext` yields `2025-11-12T15:47:53`, whose date
component is 2025-11-12. -/
theorem spec_c8 (pre suf : List Char) (y mo d hh mi ss : Nat)
    (hpre : ∀ c ∈ pre, isDig c = false)
    (hy : y < 10000) (hmo : mo < 100) (hd : d < 100)
    (hhh : hh < 100) (hmi : mi < 100) (hss : ss < 100)
    (hv : validDT y mo d hh mi ss = true) :
    extract_timestamp_from_filename
        (String.mk (pre ++ dtChars y mo d ++ '_' :: (tmChars hh mi ss ++ suf)))
      = .iso (isoOf y mo d hh mi ss) :=
  extract_timestamp_inst pre suf y mo d hh mi ss hpre hy hmo hd hhh hmi hss hv

/-- Witness for C8 (amended) on the spec's example filename. -/
theorem spec_c8_witness :
    extract_timestamp_from_filename "platformX_20251112_154753.ext"
      = .iso "2025-11-12T15:47:53" := by
  have h := spec_c8 "platformX_".toList ".ext".toList 2025 11 12 15 47 53
    (by decide) (by decide) (by decide) (by decide) (by decide) (by decide)
    (by decide) (by decide)
  rw [show String.mk ("platformX_".toList ++ dtChars 2025 11 12 ++ '_' ::
      (tmChars 15 47 53 ++ ".ext".toList)) = "platformX_20251112_154753.ext"
    by decide] at h
  rw [show isoOf 2025 11 12 15 47 53 = "2025-11-12T15:47:53" by decide] at h
  exact h

/-- C9: a filename whose token pair matches the pattern but whose digits do
not form a valid calendar date/time makes the timestamp parse raise
(uncaught `ValueError`) — modelled as the `.error` outcome — rather than
return a timestamp or fall back to the current time. -/
theorem spec_c9 :
    extract_timestamp_from_filename "x_99999999_999999.html" = .error := by
  decide

/-- C10 (frame property): merging an entry changes no other date's entries
and no other platform's count under the same date: every lookup at a
(date, platform) pair other than the merged one is unchanged. -/
theorem spec_c10 (h : History) (e : Entry) (d' p' : String)
    (hne : d' ≠ entryDate e ∨ p' ≠ platStr e.platform) :
    dictGet2 (append_data h e).1 d' p' = dictGet2 h d' p' :=
  append_data_frame h e d' p' hne

/-- The store for the C10 witness. -/
def c10hist : History :=
  [("2025-11-11", [("douyin", 7), ("bilibili", 9)]),
   ("2025-11-12", [("bilibili", 10)])]

/-- The entry merged in the C10 witness. -/
def c10entry : Entry :=
  ⟨.bilibili, 532, "2025-11-12T10:00:00", "bilibili_20251112_100000.html"⟩

/-- Witness for C10 at a concrete store, other date and platform. -/
theorem spec_c10_witness :
    dictGet2 (append_data c10hist c10entry).1 "2025-11-11" "douyin"
      = dictGet2 c10hist "2025-11-11" "douyin" :=
  spec_c10 c10hist c10entry "2025-11-11" "douyin" (Or.inl (by decide))

end ChannelMonitor
